import Mathlib

/-!
# signalfx-datasource: value coercion, column buffers, object listing, query dispatch

A shallow embedding of `pkg/plugin/datasource.go` and `pkg/plugin/get-metrics.go`.

* Go strings are Lean strings; the library functions used on them
  (`strings.Split`, `strings.Contains`, `strconv.ParseFloat`, the `String`
  methods of `*inf.Dec`, `*big.Int` and `gocql.UUID`) are modelled below, each
  on the arguments the program passes.
* A value of type `interface{}` is a tagged union of the dynamic types the
  program distinguishes.
* A run-time panic (index out of range) is an explicit outcome.
-/

namespace SignalFx

/-! ## Go library models -/

deriving instance DecidableEq for Except

/-- Errors of the Go `error` interface, by message. -/
structure GoError where
  msg : String
  deriving DecidableEq, Repr

/-- A run-time panic, by message. -/
structure Panic where
  msg : String
  deriving DecidableEq, Repr

/-- A `time.Time`, as nanoseconds since the Unix epoch. -/
structure Time where
  unixNano : Int
  deriving DecidableEq, Repr

/-- A `float32`, by its IEEE-754 bit pattern. -/
structure Float32 where
  bits : Nat
  deriving DecidableEq, Repr

/-- A `float64`: a finite value `(-1)^neg * mant * 2^exp`, an infinity or a NaN.
Finite values produced by `ParseFloat` are in IEEE-754 double form:
`2^52 ≤ mant < 2^53` and `-1074 ≤ exp ≤ 971`, or `mant < 2^52` and `exp = -1074`. -/
inductive Float64 where
  | finite (neg : Bool) (mant : Nat) (exp : Int)
  | inf (neg : Bool)
  | nan
  deriving DecidableEq, Repr

/-- The `float64` zero. -/
def Float64.zero : Float64 := .finite false 0 (-1074)

/-- A `gocql.UUID`: sixteen bytes. -/
structure UUID where
  bytes : List Nat
  deriving DecidableEq, Repr

/-- An `inf.Dec`: the value `unscaled * 10^(-scale)`. -/
structure Dec where
  unscaled : Int
  scale : Int
  deriving DecidableEq, Repr

/-- The decimal digits of a natural number, most significant first
(`fuel` bounds the number of digits). -/
def natDigits : Nat → Nat → List Char
  | 0, _ => []
  | fuel + 1, n =>
    let d := Char.ofNat (48 + n % 10)
    if n < 10 then [d] else natDigits fuel (n / 10) ++ [d]

/-- The method `(*big.Int).String` on a non-nil receiver: decimal digits with a
leading minus sign for negative values. -/
def bigString (x : Int) : List Char :=
  if x < 0 then '-' :: natDigits (x.natAbs + 1) x.natAbs else natDigits (x.natAbs + 1) x.natAbs

/-- The method `(*big.Int).String`; a nil receiver prints as `<nil>`. -/
def BigInt.String : Option Int → String
  | none => "<nil>"
  | some x => ⟨bigString x⟩

/-- The method `(*inf.Dec).String`: `<nil>` for a nil receiver; for a scale
below one the unscaled digits, followed by `-scale` zeros when the value is not
zero; otherwise the unscaled digits with the point before the last `scale` of
them, written `0.` and zeros first when there are no more than `scale` digits. -/
def Dec.String : Option Dec → String
  | none => "<nil>"
  | some x =>
    let s := bigString x.unscaled
    if x.scale ≤ 0 then
      if x.scale ≠ 0 ∧ x.unscaled ≠ 0 then ⟨s ++ List.replicate (-x.scale).toNat '0'⟩ else ⟨s⟩
    else
      let negbit : Nat := if x.unscaled < 0 then 1 else 0
      let scale := x.scale.toNat
      let lens := s.length
      if lens - negbit ≤ scale then
        ⟨(if negbit = 1 then ['-'] else []) ++
          '0' :: '.' :: List.replicate (scale + negbit - lens) '0' ++ s.drop negbit⟩
      else
        ⟨s.take (lens - scale) ++ '.' :: s.drop (lens - scale)⟩

/-- Hexadecimal digit of a value below sixteen. -/
def hexDigit (n : Nat) : Char :=
  if n < 10 then Char.ofNat (48 + n) else Char.ofNat (87 + n)

/-- Two hexadecimal digits per byte. -/
def hexBytes (bs : List Nat) : List Char :=
  bs.flatMap fun b => [hexDigit (b / 16 % 16), hexDigit (b % 16)]

/-- The method `gocql.UUID.String`: the canonical 8-4-4-4-12 hexadecimal form. -/
def UUID.String (u : UUID) : String :=
  let b := u.bytes
  ⟨hexBytes (b.take 4) ++ '-' :: hexBytes ((b.drop 4).take 2) ++ '-' ::
    hexBytes ((b.drop 6).take 2) ++ '-' :: hexBytes ((b.drop 8).take 2) ++ '-' ::
    hexBytes ((b.drop 10).take 6)⟩

/-- The two errors of `strconv.ParseFloat`. -/
inductive NumError where
  | ErrSyntax
  | ErrRange
  deriving DecidableEq, Repr

/-- Value of a run of decimal digits; `none` when a character is not a digit. -/
def digitsValue : List Char → Nat → Option Nat
  | [], acc => some acc
  | c :: cs, acc =>
    if '0' ≤ c ∧ c ≤ '9' then digitsValue cs (acc * 10 + (c.toNat - 48)) else none

/-- Floor of the binary logarithm (`0` for `0` and `1`); `fuel` bounds the depth. -/
def log2Fuel : Nat → Nat → Nat
  | 0, _ => 0
  | fuel + 1, n => if n < 2 then 0 else log2Fuel fuel (n / 2) + 1

/-- Floor of the binary logarithm of the positive rational `n / d`. -/
def floorLog2Ratio (n d : Nat) : Int :=
  let a : Int := log2Fuel n n
  let b : Int := log2Fuel d d
  let e := a - b
  if d * 2 ^ e.toNat ≤ n * 2 ^ (-e).toNat then e else e - 1

/-- IEEE-754 round-to-nearest-even of the rational `n / d` (`d > 0`) to a
`float64`; a value that rounds beyond the largest finite double is a range
error, a value that rounds below the smallest subnormal is zero. -/
def roundFloat64 (neg : Bool) (n d : Nat) : Except NumError Float64 :=
  if n = 0 then .ok (.finite neg 0 (-1074)) else
  let e := max (floorLog2Ratio n d - 52) (-1074)
  let num := n * 2 ^ (-e).toNat
  let den := d * 2 ^ e.toNat
  let q := num / den
  let r := num % den
  let m := if den < 2 * r ∨ (2 * r = den ∧ q % 2 = 1) then q + 1 else q
  let (m, e) := if m = 2 ^ 53 then (2 ^ 52, e + 1) else (m, e)
  if 971 < e then .error .ErrRange else .ok (.finite neg m e)

/-- Split a list at the first occurrence of a character: the part before it and,
when the character occurs, the part after it. -/
def cutAt (c : Char) : List Char → List Char × Option (List Char)
  | [] => ([], none)
  | x :: xs =>
    if x = c then ([], some xs) else
      let (a, b) := cutAt c xs
      (x :: a, b)

/-- Parse an unsigned plain decimal numeral `digits[.digits]` with at least one
digit. -/
def parseUnsigned (neg : Bool) (s : List Char) : Except NumError Float64 :=
  match cutAt '.' s with
  | (ip, none) =>
    if ip = [] then .error .ErrSyntax else
    match digitsValue ip 0 with
    | some n => roundFloat64 neg n 1
    | none => .error .ErrSyntax
  | (ip, some fp) =>
    if ip = [] ∧ fp = [] then .error .ErrSyntax else
    match digitsValue (ip ++ fp) 0 with
    | some n => roundFloat64 neg n (10 ^ fp.length)
    | none => .error .ErrSyntax

/-- The function `strconv.ParseFloat(s, 64)` on plain decimal numerals
`[+-]digits[.digits]`, the numerals the two `String` methods above print:
the nearest `float64` (ties to even), or `ErrRange` when that is infinite.
Every other string is a syntax error here; of those the program passes only
`<nil>`, which the library rejects (see `Dec_String_no_syntax_error` and
`BigInt_String_no_syntax_error`). -/
def ParseFloat (s : String) : Except NumError Float64 :=
  match s.data with
  | [] => .error .ErrSyntax
  | c :: rest =>
    if c = '-' then parseUnsigned true rest
    else if c = '+' then parseUnsigned false rest
    else parseUnsigned false (c :: rest)

/-! ## `datasource.go`: declared kinds, buffers and coercion -/

/-- The dynamic value of an `interface{}` passed to `toValue`, by dynamic type.
A pointer type holds `none` for a nil pointer (which is not the nil interface).
A value of any other dynamic type is held by what `json.Marshal` returns for
it: the encoded text, or `none` when marshalling fails. -/
inductive RawValue where
  | nil
  | float32 (x : Float32)
  | time (t : Time)
  | string (s : String)
  | int64 (n : Int)
  | float64 (x : Float64)
  | bool (b : Bool)
  | int16 (n : Int)
  | int8 (n : Int)
  | uuid (u : UUID)
  | int (n : Int)
  | dec (d : Option Dec)
  | bigInt (b : Option Int)
  | other (json : Option String)
  deriving DecidableEq, Repr

/-- The dynamic value of the `interface{}` returned by `toValue`. -/
inductive Value where
  | nil
  | float32 (x : Float32)
  | time (t : Time)
  | string (s : String)
  | int64 (n : Int)
  | float64 (x : Float64)
  | bool (b : Bool)
  | int16 (n : Int)
  | int8 (n : Int)
  | int (n : Int)
  deriving DecidableEq, Repr

/-- Go scalar types that occur as dynamic types of results and as element
types of buffers. -/
inductive Kind where
  | time | int64 | int16 | bool | float64 | float32 | int8 | string | int
  deriving DecidableEq, Repr

/-- The dynamic type of a returned value; `none` for the nil interface. -/
def Value.kind : Value → Option Kind
  | .nil => none
  | .float32 _ => some .float32
  | .time _ => some .time
  | .string _ => some .string
  | .int64 _ => some .int64
  | .float64 _ => some .float64
  | .bool _ => some .bool
  | .int16 _ => some .int16
  | .int8 _ => some .int8
  | .int _ => some .int

/-- The slices `getTypeArray` returns, by element type. -/
inductive TypeArray where
  | times (xs : List Time)
  | int64s (xs : List Int)
  | int16s (xs : List Int)
  | bools (xs : List Bool)
  | float64s (xs : List Float64)
  | float32s (xs : List Float32)
  | int8s (xs : List Int)
  | strings (xs : List String)
  deriving DecidableEq, Repr

/-- Element type of a buffer. -/
def TypeArray.elemKind : TypeArray → Kind
  | .times _ => .time
  | .int64s _ => .int64
  | .int16s _ => .int16
  | .bools _ => .bool
  | .float64s _ => .float64
  | .float32s _ => .float32
  | .int8s _ => .int8
  | .strings _ => .string

/-- Number of elements of a buffer. -/
def TypeArray.len : TypeArray → Nat
  | .times xs => xs.length
  | .int64s xs => xs.length
  | .int16s xs => xs.length
  | .bools xs => xs.length
  | .float64s xs => xs.length
  | .float32s xs => xs.length
  | .int8s xs => xs.length
  | .strings xs => xs.length

/-- `getTypeArray` (datasource.go:109-129). -/
def getTypeArray (typ : String) : TypeArray :=
  if typ = "timestamp" then .times []
  else if typ = "bigint" ∨ typ = "int" then .int64s []
  else if typ = "smallint" then .int16s []
  else if typ = "boolean" then .bools []
  else if typ = "double" ∨ typ = "varint" ∨ typ = "decimal" then .float64s []
  else if typ = "float" then .float32s []
  else if typ = "tinyint" then .int8s []
  else .strings []

/-- `toValue` (datasource.go:131-163). The untyped constant in `return 0` has
dynamic type `int`. In the default case a marshalling error is logged and the
nil byte slice converts to the empty string. -/
def toValue (val : RawValue) (typ : String) : Value :=
  if val = .nil then .nil
  else if typ = "blob" then .string "Blob"
  else
    match val with
    | .nil => .nil
    | .float32 t => .float32 t
    | .time t => .time t
    | .string t => .string t
    | .int64 t => .int64 t
    | .float64 t => .float64 t
    | .bool t => .bool t
    | .int16 t => .int16 t
    | .int8 t => .int8 t
    | .uuid t => .string t.String
    | .int t => .int64 t
    | .dec t =>
      match ParseFloat (Dec.String t) with
      | .ok s => .float64 s
      | .error _ => .int 0
    | .bigInt t =>
      match ParseFloat (BigInt.String t) with
      | .ok s => .float64 s
      | .error _ => .int 0
    | .other json =>
      match json with
      | some r => .string r
      | none => .string ""

/-! ## Frames of the plugin SDK -/

/-- The value vector of a frame field, by the slice type it was built from. -/
inductive FieldValues where
  | strings (xs : List String)
  | times (xs : List (Option Time))
  | int64s (xs : List (Option Int))
  deriving DecidableEq, Repr

/-- Number of elements of a value vector. -/
def FieldValues.len : FieldValues → Nat
  | .strings xs => xs.length
  | .times xs => xs.length
  | .int64s xs => xs.length

/-- Values stored in the `Custom` maps of field configurations and frame
metadata. -/
inductive CustomValue where
  | int (n : Int)
  | string (s : String)
  | strings (xs : List String)
  deriving DecidableEq, Repr

/-- A `data.FieldConfig`, with the two members the program sets. -/
structure FieldConfig where
  Custom : List (String × CustomValue)
  Unit : String
  deriving DecidableEq, Repr

/-- A `data.Field`. -/
structure Field where
  Name : String
  values : FieldValues
  Config : Option FieldConfig
  deriving DecidableEq, Repr

/-- A `data.FrameMeta`, with the member the program sets. -/
structure FrameMeta where
  Custom : List (String × CustomValue)
  deriving DecidableEq, Repr

/-- A `data.Frame`. -/
structure Frame where
  Name : String
  Fields : List Field
  Meta : Option FrameMeta
  deriving DecidableEq, Repr

/-- The constructor `data.NewFrame(name)` without fields. -/
def NewFrame (name : String) : Frame := ⟨name, [], none⟩

/-- The constructor `data.NewField(name, nil, values)`. -/
def NewField (name : String) (values : FieldValues) : Field := ⟨name, values, none⟩

/-- A pair `(*data.Frame, error)` returned by a Go function, or the panic that
ended the call. -/
abbrev FrameResult := Except Panic (Option Frame × Option GoError)

/-! ## `get-metrics.go`: object listing -/

/-- An element of `ListObjectsV2Output.CommonPrefixes`. -/
structure CommonPrefix where
  Prefix : String
  deriving DecidableEq, Repr

/-- An element of `ListObjectsV2Output.Contents`; `LastModified` and `Size` are
pointers and may be nil. -/
structure Object where
  Key : String
  LastModified : Option Time
  Size : Option Int
  deriving DecidableEq, Repr

/-- The listing result of `ListObjectsV2WithContext`, with the two members the
program reads. -/
structure ListObjectsV2Output where
  CommonPrefixes : List CommonPrefix
  Contents : List Object
  deriving DecidableEq, Repr

/-- The request of `ListObjectsV2WithContext`. -/
structure ListObjectsV2Input where
  Bucket : String
  Prefix : String
  Delimiter : String
  deriving DecidableEq, Repr

/-- The object-store client: its listing call returns `(result, err)`. -/
structure S3 where
  ListObjectsV2WithContext : ListObjectsV2Input → Except GoError ListObjectsV2Output

/-- The `Query` argument of `s3List`, with the members it reads. -/
structure Query where
  Bucket : String
  Path : String
  Query : String
  deriving DecidableEq, Repr

/-- Pieces of a character list between occurrences of the separator. -/
def splitChars (sep : Char) : List Char → List (List Char)
  | [] => [[]]
  | c :: cs =>
    if c = sep then [] :: splitChars sep cs
    else
      match splitChars sep cs with
      | [] => [[c]]
      | p :: ps => (c :: p) :: ps

/-- The function `strings.Split(s, sep)` for a separator of one character. -/
def Split (s : String) (sep : Char) : List String :=
  (splitChars sep s.data).map String.mk

/-- Whether `sub` occurs in a character list as a contiguous block. -/
def containsChars (sub : List Char) : List Char → Bool
  | [] => sub.isEmpty
  | c :: cs => sub.isPrefixOf (c :: cs) || containsChars sub cs

/-- The function `strings.Contains(s, substr)`. -/
def Contains (s substr : String) : Bool :=
  containsChars substr.data s.data

/-- Slice indexing `xs[i]` with Go's bounds check. -/
def index {α : Type} (xs : List α) (i : Int) : Except Panic α :=
  if 0 ≤ i ∧ i < xs.length then
    match xs.get? i.toNat with
    | some x => .ok x
    | none => .error ⟨"index out of range"⟩
  else .error ⟨"index out of range"⟩

/-- The four slices the loops of `s3List` append to. -/
structure Columns where
  folders : List String
  name : List String
  modified : List (Option Time)
  size : List (Option Int)
  deriving DecidableEq, Repr

/-- The loop over `result.CommonPrefixes` (get-metrics.go:63-73). -/
def foldersLoop (formatted : Bool) : List CommonPrefix → Columns → Except Panic Columns
  | [], c => .ok c
  | p :: rest, c =>
    let parts := Split p.Prefix '/'
    match index parts ((parts.length : Int) - 2) with
    | .error e => .error e
    | .ok part =>
      let folders := c.folders ++ [part]
      let part := if formatted then part ++ ",type=folder,key=" ++ p.Prefix else part
      foldersLoop formatted rest ⟨folders, c.name ++ [part], c.modified ++ [none], c.size ++ [none]⟩

/-- The loop over `result.Contents` (get-metrics.go:74-83). -/
def objectsLoop (formatted : Bool) : List Object → Columns → Except Panic Columns
  | [], c => .ok c
  | object :: rest, c =>
    let parts := Split object.Key '/'
    match index parts ((parts.length : Int) - 1) with
    | .error e => .error e
    | .ok part =>
      let part := if formatted then part ++ ",type=file,key=" ++ object.Key else part
      objectsLoop formatted rest
        ⟨c.folders, c.name ++ [part], c.modified ++ [object.LastModified], c.size ++ [object.Size]⟩

/-- The assignment `fields[i].Config = cfg`, with Go's bounds check. -/
def setConfig (fields : List Field) (i : Nat) (cfg : FieldConfig) : Except Panic (List Field) :=
  match fields.get? i with
  | some f => .ok (fields.set i { f with Config := some cfg })
  | none => .error ⟨"index out of range"⟩

/-- The part of `s3List` after the listing call (get-metrics.go:57-110). -/
def s3ListFrame (result : ListObjectsV2Output) (query : Query) : Except Panic Frame := do
  let formatted := Contains query.Query "FORMATTED"
  let c ← foldersLoop formatted result.CommonPrefixes ⟨[], [], [], []⟩
  let c ← objectsLoop formatted result.Contents c
  let frame := NewFrame "response"
  let fields := frame.Fields ++ [NewField "Name" (.strings c.name)]
  let fields := fields ++ [NewField "Last Modified" (.times c.modified)]
  let fields := fields ++ [NewField "Size" (.int64s c.size)]
  let fields ←
    if formatted then
      setConfig (fields ++ [NewField "Delete" (.strings (List.replicate c.name.length ""))]) 3
        ⟨[("width", .int 100)], ""⟩
    else pure fields
  let fields ← setConfig fields 1 ⟨[("width", .int 200)], "time:YYYY-MM-DD HH:mm:ss"⟩
  let fields ← setConfig fields 2 ⟨[("width", .int 100), ("align", .string "left")], "bytes"⟩
  pure { frame with Fields := fields, Meta := some ⟨[("folders", .strings c.folders)]⟩ }

/-- `s3List` (get-metrics.go:47-111): the listing call with delimiter `/`, an
early return of its error, then the frame. -/
def s3List (svc : S3) (query : Query) : FrameResult :=
  match svc.ListObjectsV2WithContext ⟨query.Bucket, query.Path, "/"⟩ with
  | .error err => .ok (none, some err)
  | .ok result =>
    match s3ListFrame result query with
    | .error p => .error p
    | .ok frame => .ok (some frame, none)

/-- The column of a frame with the given name, if present. -/
def Frame.column (f : Frame) (name : String) : Option FieldValues :=
  (f.Fields.find? fun fld => fld.Name = name).map Field.values

/-- The rows of a listing frame: name, last-modified and size at each position
of its first three columns. -/
def Frame.rows (f : Frame) : List (String × Option Time × Option Int) :=
  match f.Fields with
  | ⟨_, .strings ns, _⟩ :: ⟨_, .times ms, _⟩ :: ⟨_, .int64s ss, _⟩ :: _ => ns.zip (ms.zip ss)
  | _ => []

/-! ## `models.go` and `datasource.go`: queries and the batch handler -/

/-- A JSON payload handed to `json.Unmarshal`, held by what decoding it into the
target gives: the decoded target, or the decoding error. -/
inductive RawJSON (α : Type) where
  | valid (decoded : α)
  | malformed (err : GoError)
  deriving DecidableEq, Repr

/-- The `queryModel` of models.go. -/
structure queryModel where
  RefID : String
  Program : String
  StartTime : Time
  StopTime : Time
  Interval : Int
  Alias : String
  MaxDelay : Int
  MinResolution : Int
  deriving DecidableEq, Repr

/-- The anonymous `settings` struct of `SignalFxDatasource` (models.go). -/
structure Settings where
  url : String
  token : String
  deriving DecidableEq, Repr

/-- The `instanceSettings` of models.go; the HTTP client is not inspected. -/
structure instanceSettings where
  httpClient : Unit
  deriving DecidableEq, Repr

/-- An `instancemgmt.Instance`: an `*instanceSettings`, or nil or a value of
another dynamic type. -/
inductive Instance where
  | instanceSettings (s : instanceSettings)
  | other
  deriving DecidableEq, Repr

/-- A `backend.DataSourceInstanceSettings`, with the member the program reads. -/
structure DataSourceInstanceSettings where
  JSONData : RawJSON Settings
  deriving DecidableEq, Repr

/-- A `backend.PluginContext`, with the member the program reads (a non-nil
pointer). -/
structure PluginContext where
  DataSourceInstanceSettings : DataSourceInstanceSettings
  deriving DecidableEq, Repr

/-- A `backend.DataQuery`, with the members the program reads. -/
structure DataQuery where
  RefID : String
  JSON : RawJSON queryModel
  deriving DecidableEq, Repr

/-- A `backend.QueryDataRequest`. -/
structure QueryDataRequest where
  PluginContext : PluginContext
  Queries : List DataQuery
  deriving DecidableEq, Repr

/-- A `backend.DataResponse`. -/
structure DataResponse where
  Frames : List (Option Frame)
  Error : Option GoError
  deriving DecidableEq, Repr

/-- A `backend.QueryDataResponse`: the map from RefID to response. -/
structure QueryDataResponse where
  Responses : String → Option DataResponse

/-- The constructor `backend.NewQueryDataResponse()`: an empty map. -/
def NewQueryDataResponse : QueryDataResponse := ⟨fun _ => none⟩

/-- The map assignment `response.Responses[key] = res`. -/
def QueryDataResponse.set (r : QueryDataResponse) (key : String) (res : DataResponse) :
    QueryDataResponse :=
  ⟨fun k => if k = key then some res else r.Responses k⟩

/-- The type `SignalFxApiCall`. Its declaration is not among the sources; the
members are those the code reads and writes, all strings, so the zero value of
`var apiCall SignalFxApiCall` has the empty `Path`. -/
structure SignalFxApiCall where
  Path : String
  Method : String
  BaseURL : String
  Token : String
  deriving DecidableEq, Repr

/-- The zero value of `SignalFxApiCall`. -/
def SignalFxApiCall.zero : SignalFxApiCall := ⟨"", "", "", ""⟩

/-- An element of `MetricResponse.Results`, with the member the program reads. -/
structure MetricResult where
  Name : String
  deriving DecidableEq, Repr

/-- The `MetricResponse` that `doRequest` fills. -/
structure MetricResponse where
  Results : List MetricResult
  deriving DecidableEq, Repr

/-- The `SignalFxDatasource` of models.go, with what `QueryData` and `query`
use: the instance manager's `Get`, the API client's `doRequest` (it fills the
response it is given; a panic ends the call), the method `getDatapoints`
(not among the sources, taken as given: it receives the URL and the token) and
the settings. -/
structure SignalFxDatasource where
  imGet : PluginContext → Except GoError Instance
  doRequest : SignalFxApiCall → Except Panic MetricResponse
  getDatapoints : String → String → FrameResult
  settings : Settings

/-- The backend operations `query` can invoke. -/
inductive BackendCall where
  | getMetrics
  | getDatapoints
  deriving DecidableEq, Repr

/-- `getMetrics` (get-metrics.go:10-23). The source returns the collected
names where a frame is expected; they are held as the one column of a frame. -/
def getMetrics (ds : SignalFxDatasource) (apiCall : SignalFxApiCall) (url token : String) :
    FrameResult :=
  let apiCall := { apiCall with BaseURL := url, Token := token }
  match ds.doRequest apiCall with
  | .error p => .error p
  | .ok response =>
    let values := response.Results.foldl (fun values r => values ++ [r.Name]) []
    .ok (some ⟨"", [NewField "" (.strings values)], none⟩, none)

/-- One run of `query`: the backend operations invoked, in order, and the
response returned or the panic that ended the run. -/
structure QueryRun where
  calls : List BackendCall
  result : Except Panic DataResponse

/-- `SignalFxDatasource.query` (datasource.go:166-210). The variable `apiCall`
is declared and never assigned before the switch on its `Path`; the frame of
`data.NewFrame` is overwritten by the result of `getDatapoints` before it is
used. -/
def query (ds : SignalFxDatasource) (_instance : instanceSettings) (dataQuery : DataQuery) :
    QueryRun :=
  let apiCall := SignalFxApiCall.zero
  let response : DataResponse := ⟨[], none⟩
  match dataQuery.JSON with
  | .malformed err => ⟨[], .ok { response with Error := some err }⟩
  | .valid _ =>
    let token := ds.settings.token
    let url := ds.settings.url
    let switched : QueryRun :=
      if apiCall.Path = "/v2/metric" then
        let apiCall := { apiCall with Method := "GET" }
        match getMetrics ds apiCall url token with
        | .error p => ⟨[.getMetrics], .error p⟩
        | .ok (_, err) => ⟨[.getMetrics], .ok { response with Error := err }⟩
      else ⟨[], .ok response⟩
    match switched.result with
    | .error p => ⟨switched.calls, .error p⟩
    | .ok response =>
      let calls := switched.calls ++ [.getDatapoints]
      match ds.getDatapoints url token with
      | .error p => ⟨calls, .error p⟩
      | .ok (frame, err) =>
        let response := { response with Error := err }
        if err.isSome then ⟨calls, .ok response⟩
        else ⟨calls, .ok { response with Frames := response.Frames ++ [frame] }⟩

/-- The loop of `QueryData` over `req.Queries` (datasource.go:92-98). -/
def queriesLoop (ds : SignalFxDatasource) (instSetting : instanceSettings) :
    List DataQuery → QueryDataResponse → Except Panic QueryDataResponse
  | [], response => .ok response
  | q :: rest, response =>
    match (query ds instSetting q).result with
    | .error p => .error p
    | .ok res => queriesLoop ds instSetting rest (response.set q.RefID res)

/-- `SignalFxDatasource.QueryData` (datasource.go:56-101): the pair
`(*QueryDataResponse, error)`. The decoded settings overwrite the receiver's
settings before the queries run. A panic in the loop is recovered by the
deferred function, after which the call returns the zero values `(nil, nil)`. -/
def QueryData (ds : SignalFxDatasource) (req : QueryDataRequest) :
    Option QueryDataResponse × Option GoError :=
  match req.PluginContext.DataSourceInstanceSettings.JSONData with
  | .malformed err => (none, some err)
  | .valid settings =>
    let ds := { ds with settings := settings }
    match ds.imGet req.PluginContext with
    | .error err => (none, some err)
    | .ok inst =>
      let response := NewQueryDataResponse
      match inst with
      | .instanceSettings instSetting =>
        match queriesLoop ds instSetting req.Queries response with
        | .error _ => (none, none)
        | .ok response => (some response, none)
      | .other => (none, none)

/-! ## Reference descriptions used in the statements -/

/-- The last path segment of a path: the characters after its last `/` (the
whole path when it has none). -/
def lastSegment (s : List Char) : List Char :=
  (s.reverse.takeWhile fun c => c ≠ '/').reverse

/-- The path up to, and without, its last `/`. -/
def beforeLastSlash (s : List Char) : List Char :=
  ((s.reverse.dropWhile fun c => c ≠ '/').drop 1).reverse

/-- The segment of a folder key: the last segment of the path that the key's
final `/` terminates (`b` for `a/b/`). -/
def folderSegment (key : String) : String :=
  ⟨lastSegment (beforeLastSlash key.data)⟩

/-- The segment of an object key: its last path segment (`file.txt` for
`a/file.txt`). -/
def objectSegment (key : String) : String :=
  ⟨lastSegment key.data⟩

/-- Display name of a folder row. -/
def folderName (formatted : Bool) (key : String) : String :=
  if formatted then folderSegment key ++ ",type=folder,key=" ++ key else folderSegment key

/-- Display name of an object row. -/
def objectName (formatted : Bool) (key : String) : String :=
  if formatted then objectSegment key ++ ",type=file,key=" ++ key else objectSegment key

/-- Every common prefix of the listing contains a `/`. -/
def slashed (result : ListObjectsV2Output) : Prop :=
  ∀ p ∈ result.CommonPrefixes, '/' ∈ p.Prefix.data

instance (result : ListObjectsV2Output) : Decidable (slashed result) := by
  unfold slashed; infer_instance

/-- The frame of a listing: the folder rows, then the object rows. -/
def listingFrame (formatted : Bool) (result : ListObjectsV2Output) : Frame :=
  let names := result.CommonPrefixes.map (fun p => folderName formatted p.Prefix) ++
    result.Contents.map (fun o => objectName formatted o.Key)
  let modified := List.replicate result.CommonPrefixes.length none ++
    result.Contents.map Object.LastModified
  let sizes := List.replicate result.CommonPrefixes.length none ++
    result.Contents.map Object.Size
  ⟨"response",
    [⟨"Name", .strings names, none⟩,
     ⟨"Last Modified", .times modified,
       some ⟨[("width", .int 200)], "time:YYYY-MM-DD HH:mm:ss"⟩⟩,
     ⟨"Size", .int64s sizes,
       some ⟨[("width", .int 100), ("align", .string "left")], "bytes"⟩⟩] ++
    (if formatted then
      [⟨"Delete", .strings (List.replicate names.length ""), some ⟨[("width", .int 100)], ""⟩⟩]
     else []),
    some ⟨[("folders", .strings (result.CommonPrefixes.map fun p => folderSegment p.Prefix))]⟩⟩

/-- A decimal digit. -/
def IsDigit (c : Char) : Prop := '0' ≤ c ∧ c ≤ '9'

/-- A plain decimal numeral without sign: digits, or digits, a point and
digits, with a digit on at least one side of the point. -/
inductive Unsigned : List Char → Prop where
  | whole (a : List Char) (ha : ∀ c ∈ a, IsDigit c) (hne : a ≠ []) : Unsigned a
  | point (a b : List Char) (ha : ∀ c ∈ a, IsDigit c) (hb : ∀ c ∈ b, IsDigit c)
      (hne : a ≠ [] ∨ b ≠ []) : Unsigned (a ++ '.' :: b)

/-- The scalar type `toValue` gives a value of each dynamic type when the
declared kind is not `blob`: the listed scalar types keep their type, a UUID
and an unlisted type become a string, an `int` becomes an `int64`, a
`*inf.Dec` and a `*big.Int` become a `float64`. -/
def RawValue.coercedKind : RawValue → Option Kind
  | .nil => none
  | .float32 _ => some .float32
  | .time _ => some .time
  | .string _ => some .string
  | .int64 _ => some .int64
  | .float64 _ => some .float64
  | .bool _ => some .bool
  | .int16 _ => some .int16
  | .int8 _ => some .int8
  | .uuid _ => some .string
  | .int _ => some .int64
  | .dec _ => some .float64
  | .bigInt _ => some .float64
  | .other _ => some .string

/-- Whether the decimal string of a `*inf.Dec` or `*big.Int` parses as a
`float64`; true of every other value. -/
def RawValue.parses : RawValue → Bool
  | .dec d =>
    match ParseFloat (Dec.String d) with
    | .ok _ => true
    | .error _ => false
  | .bigInt b =>
    match ParseFloat (BigInt.String b) with
    | .ok _ => true
    | .error _ => false
  | _ => true

/-- A datasource whose instance manager returns an `*instanceSettings` and
whose `getDatapoints` returns an empty frame named `datapoints`. -/
def demoDatasource : SignalFxDatasource :=
  ⟨fun _ => .ok (.instanceSettings ⟨()⟩), fun _ => .ok ⟨[]⟩,
    fun _ _ => .ok (some (NewFrame "datapoints"), none), ⟨"", ""⟩⟩

/-- A query model as decoded from `{"refId": "A", "program": "data('cpu')"}`. -/
def demoModel : queryModel := ⟨"A", "data('cpu')", ⟨0⟩, ⟨0⟩, 0, "", 0, 0⟩

/-- A query with RefID `A` whose JSON decodes. -/
def demoDataQuery : DataQuery := ⟨"A", .valid demoModel⟩

/-- A query with RefID `B` whose JSON does not decode. -/
def brokenDataQuery : DataQuery := ⟨"B", .malformed ⟨"unexpected end of JSON input"⟩⟩

/-- A batch of the two queries with settings that decode. -/
def demoRequest : QueryDataRequest :=
  ⟨⟨⟨.valid ⟨"https://api.example", "token"⟩⟩⟩, [demoDataQuery, brokenDataQuery]⟩

/-- The same batch with settings that do not decode. -/
def brokenSettingsRequest : QueryDataRequest :=
  ⟨⟨⟨.malformed ⟨"invalid character"⟩⟩⟩, [demoDataQuery, brokenDataQuery]⟩

/-- A listing with the folder `a/b/` and the object `a/file.txt`. -/
def demoListing : ListObjectsV2Output :=
  ⟨[⟨"a/b/"⟩], [⟨"a/file.txt", some ⟨1700000000⟩, some 42⟩]⟩

/-- An object store that answers every request with `demoListing`. -/
def demoS3 : S3 := ⟨fun _ => .ok demoListing⟩

/-- A listing query without the `FORMATTED` flag. -/
def demoQuery : Query := ⟨"bucket", "a/", "LIST"⟩

/-- A listing query with the `FORMATTED` flag. -/
def demoQueryFormatted : Query := ⟨"bucket", "a/", "LIST FORMATTED"⟩

end SignalFx

open SignalFx

/-! ## The decimal strings handed to `ParseFloat` -/

theorem isDigit_ofNat (k : Nat) (h : k < 10) : IsDigit (Char.ofNat (48 + k)) := by
  unfold IsDigit
  interval_cases k <;> decide

theorem isDigit_ne_dot {c : Char} (h : IsDigit c) : c ≠ '.' := by
  rintro rfl
  exact absurd h (by unfold IsDigit; decide)

theorem isDigit_ne_minus {c : Char} (h : IsDigit c) : c ≠ '-' := by
  rintro rfl
  exact absurd h (by unfold IsDigit; decide)

theorem isDigit_ne_plus {c : Char} (h : IsDigit c) : c ≠ '+' := by
  rintro rfl
  exact absurd h (by unfold IsDigit; decide)

theorem natDigits_digits (fuel n : Nat) : ∀ c ∈ natDigits fuel n, IsDigit c := by
  induction fuel generalizing n with
  | zero => simp [natDigits]
  | succ fuel ih =>
    intro c hc
    unfold natDigits at hc
    simp only at hc
    split at hc
    · rw [List.mem_singleton] at hc
      rw [hc]
      exact isDigit_ofNat _ (Nat.mod_lt _ (by decide))
    · rcases List.mem_append.mp hc with h | h
      · exact ih _ c h
      · rw [List.mem_singleton] at h
        rw [h]
        exact isDigit_ofNat _ (Nat.mod_lt _ (by decide))

theorem natDigits_ne_nil (fuel n : Nat) : natDigits (fuel + 1) n ≠ [] := by
  unfold natDigits
  simp only
  split <;> simp

theorem digitsValue_digits (s : List Char) (h : ∀ c ∈ s, IsDigit c) (acc : Nat) :
    ∃ n, digitsValue s acc = some n := by
  induction s generalizing acc with
  | nil => exact ⟨acc, rfl⟩
  | cons c cs ih =>
    have hc : '0' ≤ c ∧ c ≤ '9' := h c (by simp)
    unfold digitsValue
    rw [if_pos hc]
    exact ih (fun d hd => h d (by simp [hd])) _

theorem cutAt_digits (s : List Char) (h : ∀ c ∈ s, IsDigit c) : cutAt '.' s = (s, none) := by
  induction s with
  | nil => rfl
  | cons c cs ih =>
    have hc : c ≠ '.' := isDigit_ne_dot (h c (by simp))
    unfold cutAt
    rw [if_neg hc, ih (fun d hd => h d (by simp [hd]))]

theorem cutAt_digits_point (a b : List Char) (h : ∀ c ∈ a, IsDigit c) :
    cutAt '.' (a ++ '.' :: b) = (a, some b) := by
  induction a with
  | nil => simp [cutAt]
  | cons c cs ih =>
    have hc : c ≠ '.' := isDigit_ne_dot (h c (by simp))
    simp only [List.cons_append]
    unfold cutAt
    rw [if_neg hc, ih (fun d hd => h d (by simp [hd]))]

theorem roundFloat64_no_syntax_error (neg : Bool) (n d : Nat) :
    roundFloat64 neg n d ≠ .error .ErrSyntax := by
  unfold roundFloat64
  split
  · simp
  · simp only
    split <;> split <;> split <;> simp

theorem parseUnsigned_no_syntax_error (neg : Bool) (s : List Char) (h : Unsigned s) :
    parseUnsigned neg s ≠ .error .ErrSyntax := by
  cases h with
  | whole a ha hne =>
    unfold parseUnsigned
    rw [cutAt_digits s ha]
    obtain ⟨n, hn⟩ := digitsValue_digits s ha 0
    simp only [hne, if_false, hn]
    exact roundFloat64_no_syntax_error _ _ _
  | point a b ha hb hne =>
    unfold parseUnsigned
    rw [cutAt_digits_point a b ha]
    have hab : ∀ c ∈ a ++ b, IsDigit c := by
      intro c hc
      rcases List.mem_append.mp hc with h | h
      · exact ha c h
      · exact hb c h
    obtain ⟨n, hn⟩ := digitsValue_digits (a ++ b) hab 0
    have hne1 : ¬ (a = [] ∧ b = []) := by
      rintro ⟨h1, h2⟩
      rcases hne with h | h
      · exact h h1
      · exact h h2
    simp only [hne1, if_false, hn]
    exact roundFloat64_no_syntax_error _ _ _

/-! ## The strings of `*big.Int` and `*inf.Dec` always parse or overflow -/

/-- On a string that is a plain decimal numeral, with or without a minus sign,
`ParseFloat` does not report a syntax error. -/
theorem ParseFloat_no_syntax_error (s : List Char) (h : Unsigned s) :
    ParseFloat ⟨s⟩ ≠ .error .ErrSyntax ∧ ParseFloat ⟨'-' :: s⟩ ≠ .error .ErrSyntax := by
  constructor
  · have hfirst : ∀ c rest, s = c :: rest → c ≠ '-' ∧ c ≠ '+' := by
      intro c rest hs
      cases h with
      | whole a ha hne =>
        have hc : IsDigit c := ha c (by simp [hs])
        exact ⟨isDigit_ne_minus hc, isDigit_ne_plus hc⟩
      | point a b ha hb hne =>
        cases a with
        | nil =>
          simp only [List.nil_append, List.cons.injEq] at hs
          rw [← hs.1]
          exact ⟨by decide, by decide⟩
        | cons a0 as =>
          simp only [List.cons_append, List.cons.injEq] at hs
          have hc : IsDigit c := hs.1 ▸ ha a0 (by simp)
          exact ⟨isDigit_ne_minus hc, isDigit_ne_plus hc⟩
    have hne : s ≠ [] := by
      cases h with
      | whole a ha hne => exact hne
      | point a b ha hb hne => simp
    cases hs : s with
    | nil => exact absurd hs hne
    | cons c rest =>
      obtain ⟨h1, h2⟩ := hfirst c rest hs
      unfold ParseFloat
      simp only [if_neg h1, if_neg h2]
      rw [← hs]
      exact parseUnsigned_no_syntax_error false s h
  · unfold ParseFloat
    simp only [if_true]
    exact parseUnsigned_no_syntax_error true s h

theorem bigString_shape (x : Int) :
    ∃ D, (∀ c ∈ D, IsDigit c) ∧ D ≠ [] ∧
      ((x < 0 ∧ bigString x = '-' :: D) ∨ (¬ x < 0 ∧ bigString x = D)) := by
  refine ⟨natDigits (x.natAbs + 1) x.natAbs, natDigits_digits _ _, natDigits_ne_nil _ _, ?_⟩
  unfold bigString
  by_cases h : x < 0
  · exact Or.inl ⟨h, by rw [if_pos h]⟩
  · exact Or.inr ⟨h, by rw [if_neg h]⟩

theorem isDigit_zeros (n : Nat) : ∀ c ∈ List.replicate n '0', IsDigit c := by
  intro c hc
  rw [List.eq_of_mem_replicate hc]
  unfold IsDigit
  decide

theorem isDigit_append {a b : List Char} (ha : ∀ c ∈ a, IsDigit c) (hb : ∀ c ∈ b, IsDigit c) :
    ∀ c ∈ a ++ b, IsDigit c := by
  intro c hc
  rcases List.mem_append.mp hc with h | h
  · exact ha c h
  · exact hb c h

/-- The decimal string of a non-nil `*big.Int` is never a syntax error for
`ParseFloat`: it parses, or it is out of range. -/
theorem BigInt_String_no_syntax_error (x : Int) :
    ParseFloat (BigInt.String (some x)) ≠ .error .ErrSyntax := by
  obtain ⟨D, hD, hne, h | h⟩ := bigString_shape x
  · simp only [BigInt.String, h.2]
    exact (ParseFloat_no_syntax_error D (.whole D hD hne)).2
  · simp only [BigInt.String, h.2]
    exact (ParseFloat_no_syntax_error D (.whole D hD hne)).1

/-- The decimal string of a non-nil `*inf.Dec` is never a syntax error for
`ParseFloat`: it parses, or it is out of range. -/
theorem Dec_String_no_syntax_error (d : Dec) :
    ParseFloat (Dec.String (some d)) ≠ .error .ErrSyntax := by
  obtain ⟨D, hD, hne, h | h⟩ := bigString_shape d.unscaled
  · obtain ⟨hneg, hs⟩ := h
    simp only [Dec.String, hs, if_pos hneg]
    by_cases hscale : d.scale ≤ 0
    · rw [if_pos hscale]
      split
      · exact (ParseFloat_no_syntax_error _
          (.whole _ (isDigit_append hD (isDigit_zeros _)) (by simp [hne]))).2
      · exact (ParseFloat_no_syntax_error D (.whole D hD hne)).2
    · rw [if_neg hscale]
      split
      · have hz : IsDigit '0' := by unfold IsDigit; decide
        have := (ParseFloat_no_syntax_error _
          (.point ['0'] (List.replicate (d.scale.toNat + 1 - ('-' :: D).length) '0' ++ D)
            (by simpa using hz) (isDigit_append (isDigit_zeros _) hD) (Or.inl (by simp)))).2
        simpa using this
      · rename_i hlen
        have hk : ∃ k, ('-' :: D).length - d.scale.toNat = k + 1 ∧ 1 ≤ k := by
          refine ⟨('-' :: D).length - d.scale.toNat - 1 - 0, ?_, ?_⟩ <;>
            simp only [List.length_cons] at hlen ⊢ <;> omega
        obtain ⟨k, hk1, hk2⟩ := hk
        rw [hk1]
        simp only [List.take_succ_cons, List.drop_succ_cons, List.cons_append]
        refine (ParseFloat_no_syntax_error _
          (.point (D.take k) (D.drop k) (fun c hc => hD c (List.mem_of_mem_take hc))
            (fun c hc => hD c (List.mem_of_mem_drop hc)) (Or.inl ?_))).2
        cases D with
        | nil => exact absurd rfl hne
        | cons c0 cs =>
          obtain ⟨j, rfl⟩ : ∃ j, k = j + 1 := ⟨k - 1, by omega⟩
          simp
  · obtain ⟨hneg, hs⟩ := h
    simp only [Dec.String, hs, if_neg hneg]
    by_cases hscale : d.scale ≤ 0
    · rw [if_pos hscale]
      split
      · exact (ParseFloat_no_syntax_error _
          (.whole _ (isDigit_append hD (isDigit_zeros _)) (by simp [hne]))).1
      · exact (ParseFloat_no_syntax_error D (.whole D hD hne)).1
    · rw [if_neg hscale]
      split
      · have hz : IsDigit '0' := by unfold IsDigit; decide
        have := (ParseFloat_no_syntax_error _
          (.point ['0'] (List.replicate (d.scale.toNat + 0 - D.length) '0' ++ D)
            (by simpa using hz) (isDigit_append (isDigit_zeros _) hD) (Or.inl (by simp)))).1
        simpa using this
      · rename_i hlen
        refine (ParseFloat_no_syntax_error _
          (.point (D.take (D.length - d.scale.toNat)) (D.drop (D.length - d.scale.toNat))
            (fun c hc => hD c (List.mem_of_mem_take hc))
            (fun c hc => hD c (List.mem_of_mem_drop hc)) (Or.inl ?_))).1
        cases D with
        | nil => exact absurd rfl hne
        | cons c0 cs =>
          obtain ⟨j, hj⟩ : ∃ j, (c0 :: cs).length - d.scale.toNat = j + 1 :=
            ⟨(c0 :: cs).length - d.scale.toNat - 1, by
              simp only [List.length_cons] at hlen ⊢; omega⟩
          rw [hj]
          simp

/-! ## Splitting at `/` -/

theorem splitChars_ne_nil (sep : Char) (s : List Char) : splitChars sep s ≠ [] := by
  cases s with
  | nil => simp [splitChars]
  | cons c cs =>
    unfold splitChars
    split
    · simp
    · split <;> simp

theorem splitChars_length (sep : Char) (s : List Char) :
    (splitChars sep s).length = s.count sep + 1 := by
  induction s with
  | nil => simp [splitChars]
  | cons c cs ih =>
    unfold splitChars
    by_cases h : c = sep
    · subst h; simp [ih]
    · have hne : (c == sep) = false := by simpa using h
      rw [if_neg h, List.count_cons, hne]
      cases hs : splitChars sep cs with
      | nil => exact absurd hs (splitChars_ne_nil sep cs)
      | cons p ps => rw [hs] at ih; simpa using ih

theorem splitChars_of_not_mem (sep : Char) (w : List Char) (h : sep ∉ w) :
    splitChars sep w = [w] := by
  induction w with
  | nil => simp [splitChars]
  | cons c cs ih =>
    have hc : c ≠ sep := fun e => h (by simp [e])
    have hcs : sep ∉ cs := fun e => h (by simp [e])
    unfold splitChars
    rw [if_neg hc, ih hcs]

theorem splitChars_append (sep : Char) (u w : List Char) :
    splitChars sep (u ++ sep :: w) = splitChars sep u ++ splitChars sep w := by
  induction u with
  | nil => simp [splitChars]
  | cons c cs ih =>
    by_cases h : c = sep
    · subst h
      simp only [List.cons_append]
      rw [splitChars, if_pos rfl, ih]
      conv_rhs => rw [splitChars, if_pos rfl]
      simp
    · simp only [List.cons_append]
      rw [splitChars, if_neg h, ih]
      conv_rhs => rw [splitChars, if_neg h]
      cases hs : splitChars sep cs with
      | nil => exact absurd hs (splitChars_ne_nil sep cs)
      | cons p ps => simp

/-- A list containing the separator splits at its last occurrence. -/
theorem exists_last_sep (sep : Char) (s : List Char) (h : sep ∈ s) :
    ∃ u w, s = u ++ sep :: w ∧ sep ∉ w := by
  induction s with
  | nil => simp at h
  | cons c cs ih =>
    by_cases hcs : sep ∈ cs
    · obtain ⟨u, w, hu, hw⟩ := ih hcs
      exact ⟨c :: u, w, by simp [hu], hw⟩
    · have hc : c = sep := by
        rcases List.mem_cons.mp h with e | e
        · exact e.symm
        · exact absurd e hcs
      exact ⟨[], cs, by simp [hc], hcs⟩

theorem lastSegment_of_not_mem (w : List Char) (h : '/' ∉ w) : lastSegment w = w := by
  unfold lastSegment
  have : (w.reverse.takeWhile fun c => decide (c ≠ '/')) = w.reverse := by
    rw [List.takeWhile_eq_self_iff]
    intro c hc
    have : c ∈ w := List.mem_reverse.mp hc
    simp only [decide_eq_true_eq]
    intro e; exact h (e ▸ this)
  rw [this, List.reverse_reverse]

theorem lastSegment_append (u w : List Char) (h : '/' ∉ w) :
    lastSegment (u ++ '/' :: w) = w := by
  unfold lastSegment
  have hrev : (u ++ '/' :: w).reverse = w.reverse ++ '/' :: u.reverse := by simp
  rw [hrev, List.takeWhile_append_of_pos]
  · simp
  · intro c hc
    have : c ∈ w := List.mem_reverse.mp hc
    simp only [decide_eq_true_eq]
    intro e; exact h (e ▸ this)

theorem beforeLastSlash_append (u w : List Char) (h : '/' ∉ w) :
    beforeLastSlash (u ++ '/' :: w) = u := by
  unfold beforeLastSlash
  have hrev : (u ++ '/' :: w).reverse = w.reverse ++ '/' :: u.reverse := by simp
  rw [hrev, List.dropWhile_append_of_pos]
  · simp
  · intro c hc
    have : c ∈ w := List.mem_reverse.mp hc
    simp only [decide_eq_true_eq]
    intro e; exact h (e ▸ this)

/-- The pieces of a path end with its last segment. -/
theorem splitChars_last (s : List Char) :
    ∃ front, splitChars '/' s = front ++ [lastSegment s] := by
  by_cases h : '/' ∈ s
  · obtain ⟨u, w, hs, hw⟩ := exists_last_sep '/' s h
    refine ⟨splitChars '/' u, ?_⟩
    rw [hs, splitChars_append, splitChars_of_not_mem '/' w hw, lastSegment_append u w hw]
  · exact ⟨[], by rw [splitChars_of_not_mem '/' s h, lastSegment_of_not_mem s h]; rfl⟩

/-- The pieces of a path with a `/`: the last two are the segment its last `/`
terminates and its last segment. -/
theorem splitChars_last_two (s : List Char) (h : '/' ∈ s) :
    ∃ front, splitChars '/' s =
      front ++ [lastSegment (beforeLastSlash s), lastSegment s] := by
  obtain ⟨u, w, hs, hw⟩ := exists_last_sep '/' s h
  obtain ⟨front, hf⟩ := splitChars_last u
  refine ⟨front, ?_⟩
  rw [hs, splitChars_append, splitChars_of_not_mem '/' w hw, lastSegment_append u w hw,
    beforeLastSlash_append u w hw, hf]
  simp

/-- The segment of a folder key that ends in `/` is the last path segment of
the key without that `/`. -/
theorem folderSegment_trailing_slash (path : List Char) :
    folderSegment ⟨path ++ ['/']⟩ = objectSegment ⟨path⟩ := by
  unfold folderSegment objectSegment
  rw [beforeLastSlash_append path [] (by simp)]

/-- The segment of an object key is what follows its last `/`. -/
theorem objectSegment_after_dir (dir seg : List Char) (h : '/' ∉ seg) :
    objectSegment ⟨dir ++ '/' :: seg⟩ = ⟨seg⟩ := by
  unfold objectSegment
  rw [lastSegment_append dir seg h]

/-- The segment of a key without `/` is the key. -/
theorem objectSegment_of_no_slash (key : String) (h : '/' ∉ key.data) :
    objectSegment key = key := by
  unfold objectSegment
  rw [lastSegment_of_not_mem key.data h]

/-! ## The two lookups of `s3List` -/

theorem index_last {α : Type} (front : List α) (a : α) :
    index (front ++ [a]) (((front ++ [a]).length : Int) - 1) = .ok a := by
  have hi : (((front ++ [a]).length : Int) - 1) = (front.length : Int) := by
    simp
  rw [hi]
  unfold index
  simp

theorem index_penultimate {α : Type} (front : List α) (b a : α) :
    index (front ++ [b, a]) (((front ++ [b, a]).length : Int) - 2) = .ok b := by
  have hi : (((front ++ [b, a]).length : Int) - 2) = (front.length : Int) := by
    simp
  rw [hi]
  unfold index
  simp [List.getElem_append_right]

theorem index_before_single {α : Type} (xs : List α) (h : xs.length = 1) :
    index xs ((xs.length : Int) - 2) = .error ⟨"index out of range"⟩ := by
  unfold index
  rw [h]
  simp

theorem Split_lookup_object (key : String) :
    index (Split key '/') (((Split key '/').length : Int) - 1) = .ok (objectSegment key) := by
  obtain ⟨front, hf⟩ := splitChars_last key.data
  unfold Split objectSegment
  rw [hf, List.map_append]
  exact index_last (front.map String.mk) _

theorem Split_lookup_folder (key : String) (h : '/' ∈ key.data) :
    index (Split key '/') (((Split key '/').length : Int) - 2) = .ok (folderSegment key) := by
  obtain ⟨front, hf⟩ := splitChars_last_two key.data h
  unfold Split folderSegment
  rw [hf, List.map_append]
  exact index_penultimate (front.map String.mk) _ _

theorem Split_lookup_folder_fault (key : String) (h : '/' ∉ key.data) :
    index (Split key '/') (((Split key '/').length : Int) - 2) =
      .error ⟨"index out of range"⟩ := by
  apply index_before_single
  unfold Split
  rw [splitChars_of_not_mem '/' key.data h]
  rfl

/-! ## The two loops of `s3List` -/

theorem objectsLoop_eq (formatted : Bool) (os : List Object) (c : Columns) :
    objectsLoop formatted os c =
      .ok ⟨c.folders, c.name ++ os.map (fun o => objectName formatted o.Key),
        c.modified ++ os.map Object.LastModified, c.size ++ os.map Object.Size⟩ := by
  induction os generalizing c with
  | nil => simp [objectsLoop]
  | cons o rest ih =>
    unfold objectsLoop
    simp only [Split_lookup_object]
    rw [ih]
    simp [objectName]

theorem foldersLoop_eq (formatted : Bool) (ps : List CommonPrefix) (c : Columns)
    (h : ∀ p ∈ ps, '/' ∈ p.Prefix.data) :
    foldersLoop formatted ps c =
      .ok ⟨c.folders ++ ps.map (fun p => folderSegment p.Prefix),
        c.name ++ ps.map (fun p => folderName formatted p.Prefix),
        c.modified ++ List.replicate ps.length none,
        c.size ++ List.replicate ps.length none⟩ := by
  induction ps generalizing c with
  | nil => simp [foldersLoop]
  | cons p rest ih =>
    have hp : '/' ∈ p.Prefix.data := h p (by simp)
    have hrest : ∀ q ∈ rest, '/' ∈ q.Prefix.data := fun q hq => h q (by simp [hq])
    unfold foldersLoop
    simp only [Split_lookup_folder p.Prefix hp]
    rw [ih _ hrest]
    simp [folderName, List.replicate_succ]

theorem foldersLoop_fault (formatted : Bool) (ps : List CommonPrefix) (c : Columns)
    (h : ¬ ∀ p ∈ ps, '/' ∈ p.Prefix.data) :
    foldersLoop formatted ps c = .error ⟨"index out of range"⟩ := by
  induction ps generalizing c with
  | nil => simp at h
  | cons p rest ih =>
    unfold foldersLoop
    by_cases hp : '/' ∈ p.Prefix.data
    · simp only [Split_lookup_folder p.Prefix hp]
      apply ih
      intro hall
      apply h
      intro q hq
      rcases List.mem_cons.mp hq with e | e
      · exact e ▸ hp
      · exact hall q e
    · simp only [Split_lookup_folder_fault p.Prefix hp]

/-! ## The frame of `s3List` -/

theorem s3ListFrame_eq (result : ListObjectsV2Output) (query : Query) (h : slashed result) :
    s3ListFrame result query =
      .ok (listingFrame (Contains query.Query "FORMATTED") result) := by
  unfold s3ListFrame
  simp only [bind, Except.bind, foldersLoop_eq _ _ _ h, objectsLoop_eq]
  cases hf : Contains query.Query "FORMATTED" <;>
    simp [listingFrame, NewFrame, NewField, setConfig, pure, Except.pure]

theorem s3ListFrame_fault (result : ListObjectsV2Output) (query : Query) (h : ¬ slashed result) :
    s3ListFrame result query = .error ⟨"index out of range"⟩ := by
  unfold s3ListFrame
  simp only [bind, Except.bind, foldersLoop_fault _ _ _ h]

theorem s3List_eq (svc : S3) (query : Query) (result : ListObjectsV2Output)
    (hlist : svc.ListObjectsV2WithContext ⟨query.Bucket, query.Path, "/"⟩ = .ok result)
    (h : slashed result) :
    s3List svc query =
      .ok (some (listingFrame (Contains query.Query "FORMATTED") result), none) := by
  unfold s3List
  rw [hlist]
  simp only [s3ListFrame_eq result query h]

/-- When `s3List` returns a frame, the common prefixes of the listing all
contain `/` and the frame is `listingFrame`. -/
theorem s3List_frame (svc : S3) (query : Query) (result : ListObjectsV2Output)
    (hlist : svc.ListObjectsV2WithContext ⟨query.Bucket, query.Path, "/"⟩ = .ok result)
    (frame : Frame) (hf : s3List svc query = .ok (some frame, none)) :
    slashed result ∧ frame = listingFrame (Contains query.Query "FORMATTED") result := by
  by_cases h : slashed result
  · rw [s3List_eq svc query result hlist h] at hf
    simp only [Except.ok.injEq, Prod.mk.injEq, Option.some.injEq, and_true] at hf
    exact ⟨h, hf.symm⟩
  · unfold s3List at hf
    rw [hlist] at hf
    simp only [s3ListFrame_fault result query h] at hf
    cases hf

/-! ## Claims on the object listing -/

/-- C5: for a listing result returned by the object store, `s3List` builds its
frame exactly when every common prefix contains `/`, and the `Name` column of
the frame it builds holds, for each common prefix and then each object key, the raw
path segment when the query text does not contain `FORMATTED`, and the segment
followed by `,type=folder,key=` and the prefix (folders) or `,type=file,key=`
and the key (objects) when it does. -/
theorem s3List_name_column (svc : S3) (query : Query) (result : ListObjectsV2Output)
    (hlist : svc.ListObjectsV2WithContext ⟨query.Bucket, query.Path, "/"⟩ = .ok result) :
    ((∃ frame, s3List svc query = .ok (some frame, none)) ↔ slashed result) ∧
    ∀ frame, s3List svc query = .ok (some frame, none) →
      (Contains query.Query "FORMATTED" = false →
        frame.column "Name" = some (.strings
          (result.CommonPrefixes.map (fun p => folderSegment p.Prefix) ++
            result.Contents.map (fun o => objectSegment o.Key)))) ∧
      (Contains query.Query "FORMATTED" = true →
        frame.column "Name" = some (.strings
          (result.CommonPrefixes.map
              (fun p => folderSegment p.Prefix ++ ",type=folder,key=" ++ p.Prefix) ++
            result.Contents.map
              (fun o => objectSegment o.Key ++ ",type=file,key=" ++ o.Key)))) := by
  refine ⟨⟨fun ⟨frame, hf⟩ => (s3List_frame svc query result hlist frame hf).1,
    fun h => ⟨_, s3List_eq svc query result hlist h⟩⟩, ?_⟩
  intro frame hf
  obtain ⟨_, rfl⟩ := s3List_frame svc query result hlist frame hf
  constructor
  · intro hfmt
    rw [hfmt]
    simp [Frame.column, listingFrame, folderName, objectName]
  · intro hfmt
    rw [hfmt]
    simp [Frame.column, listingFrame, folderName, objectName]

/-- Witness of C5 on the listing with folder `a/b/` and object `a/file.txt`,
queried with the `FORMATTED` flag. -/
theorem s3List_name_column_witness :
    ∃ frame, s3List demoS3 demoQueryFormatted = .ok (some frame, none) ∧
      frame.column "Name" =
        some (.strings ["b,type=folder,key=a/b/", "file.txt,type=file,key=a/file.txt"]) := by
  have h := s3List_name_column demoS3 demoQueryFormatted demoListing rfl
  obtain ⟨frame, hf⟩ := h.1.mpr (by decide)
  refine ⟨frame, hf, ?_⟩
  rw [((h.2 frame hf).2 (by decide))]
  decide

/-- C8: for a listing result returned by the object store and either value of
the formatted flag, `s3List` builds its frame exactly when every common prefix
contains `/`; the frame it builds has the columns Name, Last Modified, Size,
and Delete when formatted, each of length the number of common prefixes plus
the number of objects; for an empty listing the frame is built and every
column is present and empty. -/
theorem s3List_columns_same_length (svc : S3) (query : Query) (result : ListObjectsV2Output)
    (hlist : svc.ListObjectsV2WithContext ⟨query.Bucket, query.Path, "/"⟩ = .ok result) :
    ((∃ frame, s3List svc query = .ok (some frame, none)) ↔ slashed result) ∧
    (∀ frame, s3List svc query = .ok (some frame, none) →
      frame.Fields.map Field.Name =
        (if Contains query.Query "FORMATTED" then ["Name", "Last Modified", "Size", "Delete"]
         else ["Name", "Last Modified", "Size"]) ∧
      ∀ f ∈ frame.Fields,
        f.values.len = result.CommonPrefixes.length + result.Contents.length) ∧
    (result.CommonPrefixes = [] → result.Contents = [] →
      ∃ frame, s3List svc query = .ok (some frame, none) ∧
        frame.Fields.map Field.Name =
          (if Contains query.Query "FORMATTED" then ["Name", "Last Modified", "Size", "Delete"]
           else ["Name", "Last Modified", "Size"]) ∧
        ∀ f ∈ frame.Fields, f.values.len = 0) := by
  have hcols : ∀ frame, s3List svc query = .ok (some frame, none) →
      frame.Fields.map Field.Name =
        (if Contains query.Query "FORMATTED" then ["Name", "Last Modified", "Size", "Delete"]
         else ["Name", "Last Modified", "Size"]) ∧
      ∀ f ∈ frame.Fields,
        f.values.len = result.CommonPrefixes.length + result.Contents.length := by
    intro frame hf
    obtain ⟨_, rfl⟩ := s3List_frame svc query result hlist frame hf
    cases hfmt : Contains query.Query "FORMATTED" <;>
      simp [listingFrame, FieldValues.len]
  refine ⟨⟨fun ⟨frame, hf⟩ => (s3List_frame svc query result hlist frame hf).1,
    fun h => ⟨_, s3List_eq svc query result hlist h⟩⟩, hcols, ?_⟩
  intro hp hc
  have hs : slashed result := by
    intro p hp'
    rw [hp] at hp'
    cases hp'
  refine ⟨_, s3List_eq svc query result hlist hs, ?_⟩
  have := hcols _ (s3List_eq svc query result hlist hs)
  simpa [hp, hc] using this

/-- Witness of C8 on the listing with folder `a/b/` and object `a/file.txt`,
queried with the `FORMATTED` flag: four columns of length two. -/
theorem s3List_columns_same_length_witness :
    ∃ frame, s3List demoS3 demoQueryFormatted = .ok (some frame, none) ∧
      frame.Fields.map Field.Name = ["Name", "Last Modified", "Size", "Delete"] ∧
      ∀ f ∈ frame.Fields, f.values.len = 2 := by
  have h := s3List_columns_same_length demoS3 demoQueryFormatted demoListing rfl
  obtain ⟨frame, hf⟩ := h.1.mpr (by decide)
  exact ⟨frame, hf, (h.2.1 frame hf).1, (h.2.1 frame hf).2⟩

/-- C9: for a listing result returned by the object store, `s3List` builds its
frame exactly when every common prefix contains `/`, and the rows of the frame
it builds are the common prefixes in backend order, each with null Last Modified
and null Size, followed by the objects in backend order, each with its own
LastModified and Size. -/
theorem s3List_rows (svc : S3) (query : Query) (result : ListObjectsV2Output)
    (hlist : svc.ListObjectsV2WithContext ⟨query.Bucket, query.Path, "/"⟩ = .ok result) :
    ((∃ frame, s3List svc query = .ok (some frame, none)) ↔ slashed result) ∧
    ∀ frame, s3List svc query = .ok (some frame, none) →
      frame.rows =
        result.CommonPrefixes.map
          (fun p => (folderName (Contains query.Query "FORMATTED") p.Prefix, none, none)) ++
        result.Contents.map
          (fun o => (objectName (Contains query.Query "FORMATTED") o.Key,
            o.LastModified, o.Size)) := by
  refine ⟨⟨fun ⟨frame, hf⟩ => (s3List_frame svc query result hlist frame hf).1,
    fun h => ⟨_, s3List_eq svc query result hlist h⟩⟩, ?_⟩
  intro frame hf
  obtain ⟨_, rfl⟩ := s3List_frame svc query result hlist frame hf
  simp only [Frame.rows, listingFrame, List.cons_append, List.nil_append]
  rw [List.zip_append (by simp), List.zip_append (by simp)]
  congr 1
  · induction result.CommonPrefixes with
    | nil => simp
    | cons p ps ih => simpa [List.replicate_succ] using ih
  · induction result.Contents with
    | nil => simp
    | cons o os ih => simpa using ih

/-- Witness of C9: the listing with prefix `a/b/` and object key `a/file.txt`,
unformatted, gives exactly the two rows named `b` and `file.txt`, the folder
row with null Last Modified and Size. -/
theorem s3List_rows_witness :
    ∃ frame, s3List demoS3 demoQuery = .ok (some frame, none) ∧
      frame.rows = [("b", none, none), ("file.txt", some ⟨1700000000⟩, some 42)] := by
  have h := s3List_rows demoS3 demoQuery demoListing rfl
  obtain ⟨frame, hf⟩ := h.1.mpr (by decide)
  refine ⟨frame, hf, ?_⟩
  rw [h.2 frame hf]
  decide

/-- C10: for a listing result in which each common prefix contains `/`, the
folder lookup `parts[len(parts)-2]` of every common prefix and the object
lookup `parts[len(parts)-1]` of every object key are in bounds, and the two
loops and the frame construction complete without a fault; the folder lookup
is out of bounds exactly for a key without `/`, the object lookup never. -/
theorem s3List_lookups_in_bounds (result : ListObjectsV2Output) (query : Query)
    (h : slashed result) :
    (∀ p ∈ result.CommonPrefixes, ∃ part,
      index (Split p.Prefix '/') (((Split p.Prefix '/').length : Int) - 2) = .ok part) ∧
    (∀ o ∈ result.Contents, ∃ part,
      index (Split o.Key '/') (((Split o.Key '/').length : Int) - 1) = .ok part) ∧
    (∀ formatted, ∃ c c1,
      foldersLoop formatted result.CommonPrefixes ⟨[], [], [], []⟩ = .ok c ∧
      objectsLoop formatted result.Contents c = .ok c1) ∧
    (∃ frame, s3ListFrame result query = .ok frame) ∧
    (∀ key : String,
      (∃ fault, index (Split key '/') (((Split key '/').length : Int) - 2) = .error fault) ↔
        '/' ∉ key.data) ∧
    (∀ key : String, ∃ part,
      index (Split key '/') (((Split key '/').length : Int) - 1) = .ok part) := by
  refine ⟨fun p hp => ⟨_, Split_lookup_folder p.Prefix (h p hp)⟩,
    fun o _ => ⟨_, Split_lookup_object o.Key⟩,
    fun formatted => ⟨_, _, foldersLoop_eq formatted _ _ h, objectsLoop_eq formatted _ _⟩,
    ⟨_, s3ListFrame_eq result query h⟩, ?_, fun key => ⟨_, Split_lookup_object key⟩⟩
  intro key
  constructor
  · rintro ⟨fault, hfault⟩ hmem
    rw [Split_lookup_folder key hmem] at hfault
    cases hfault
  · intro hmem
    exact ⟨_, Split_lookup_folder_fault key hmem⟩

/-- Witness of C10 on the listing with folder `a/b/` and object `a/file.txt`:
the frame is built, and the folder lookup faults on the key `ab`. -/
theorem s3List_lookups_in_bounds_witness :
    (∃ frame, s3ListFrame demoListing demoQuery = .ok frame) ∧
    (∃ fault, index (Split "ab" '/') (((Split "ab" '/').length : Int) - 2) = .error fault) :=
  have h := s3List_lookups_in_bounds demoListing demoQuery (by decide)
  ⟨h.2.2.2.1, (h.2.2.2.2.1 "ab").mpr (by decide)⟩

/-! ## Claims on coercion and buffers -/

/-- The buffer `getTypeArray` returns is empty, whatever the declared kind. -/
theorem getTypeArray_empty (typ : String) : (getTypeArray typ).len = 0 := by
  unfold getTypeArray
  repeat' split
  all_goals rfl

/-- On a `*inf.Dec` whose decimal string parses, `toValue` returns the parsed
`float64` under every declared kind other than `blob`. -/
theorem toValue_dec_parsed (d : Option Dec) (typ : String) (x : Float64)
    (htyp : typ ≠ "blob") (hx : ParseFloat (Dec.String d) = .ok x) :
    toValue (.dec d) typ = .float64 x := by
  simp [toValue, htyp, hx]

/-- On a `*big.Int` whose decimal string parses, `toValue` returns the parsed
`float64` under every declared kind other than `blob`. -/
theorem toValue_bigInt_parsed (b : Option Int) (typ : String) (x : Float64)
    (htyp : typ ≠ "blob") (hx : ParseFloat (BigInt.String b) = .ok x) :
    toValue (.bigInt b) typ = .float64 x := by
  simp [toValue, htyp, hx]

/-- On a `*inf.Dec` or `*big.Int` whose decimal string does not parse,
`toValue` returns the `int` zero under every declared kind other than `blob`. -/
theorem toValue_unparsed (typ : String) (e : NumError) (htyp : typ ≠ "blob") :
    (∀ d, ParseFloat (Dec.String d) = .error e → toValue (.dec d) typ = .int 0) ∧
    (∀ b, ParseFloat (BigInt.String b) = .error e → toValue (.bigInt b) typ = .int 0) := by
  constructor <;> intro t ht <;> simp [toValue, htyp, ht]

/-- The decimal `123.45` under the declared kind `decimal` gives the `float64`
nearest to 123.45, `0x1.edccccccccccdp+6`. -/
theorem toValue_decimal_example :
    Dec.String (some ⟨12345, 2⟩) = "123.45" ∧
    toValue (.dec (some ⟨12345, 2⟩)) "decimal" =
      .float64 (.finite false 8687021468732621 (-46)) := by
  decide

/-- C1, as the code has it: for a non-null raw value other than a decimal or
big integer whose string does not parse, the scalar type of `toValue(v, K)` is
string when `K` is `blob` and otherwise the type fixed by the dynamic type of
`v` alone, so it is the element type of `getTypeArray(K)` exactly when `K` is
`blob` or the dynamic type of `v` coerces to that element type. -/
theorem toValue_kind_pairing (v : RawValue) (K : String) (hv : v ≠ .nil)
    (hp : v.parses = true) :
    (toValue v K).kind = (if K = "blob" then some .string else v.coercedKind) ∧
    ((toValue v K).kind = some (getTypeArray K).elemKind ↔
      K = "blob" ∨ v.coercedKind = some (getTypeArray K).elemKind) := by
  by_cases hK : K = "blob"
  · subst hK
    have hb : (getTypeArray "blob").elemKind = .string := by decide
    simp [toValue, hv, Value.kind, hb]
  · have hkind : (toValue v K).kind = v.coercedKind := by
      cases v with
      | nil => exact absurd rfl hv
      | dec d =>
        simp only [RawValue.parses] at hp
        cases hx : ParseFloat (Dec.String d) with
        | ok x => simp [toValue, hK, hx, Value.kind, RawValue.coercedKind]
        | error e => rw [hx] at hp; cases hp
      | bigInt b =>
        simp only [RawValue.parses] at hp
        cases hx : ParseFloat (BigInt.String b) with
        | ok x => simp [toValue, hK, hx, Value.kind, RawValue.coercedKind]
        | error e => rw [hx] at hp; cases hp
      | other json => cases json <;> simp [toValue, hK, Value.kind, RawValue.coercedKind]
      | _ => simp [toValue, hK, Value.kind, RawValue.coercedKind]
    simp [hkind, hK]

/-- Witness of C1: an `int` under the declared kind `int` becomes an `int64`,
the element type of the buffer of `int`. -/
theorem toValue_kind_pairing_witness :
    (toValue (.int 7) "int").kind = some .int64 ∧
    (toValue (.int 7) "int").kind = some (getTypeArray "int").elemKind :=
  have h := toValue_kind_pairing (.int 7) "int" (by decide) (by decide)
  ⟨h.1.trans (by decide), h.2.mpr (Or.inr (by decide))⟩

/-- Counterexample to C1 as stated: under the declared kind `bigint` a string
stays a string, while the buffer of `bigint` holds `int64`. -/
theorem toValue_kind_pairing_counterexample :
    toValue (.string "12") "bigint" = .string "12" ∧
    (toValue (.string "12") "bigint").kind = some .string ∧
    (getTypeArray "bigint").elemKind = .int64 ∧
    (toValue (.string "12") "bigint").kind ≠ some (getTypeArray "bigint").elemKind := by
  decide

/-- C2: for every declared kind, `blob` included, `toValue(nil, K)` is nil. -/
theorem toValue_nil (K : String) : toValue .nil K = .nil := by
  simp [toValue]

/-- C3, evaluated at a big integer beyond the `float64` range: the decimal
string of `10^309` does not parse (range error) and `toValue` returns the `int`
zero of `return 0`, which is not a `float64`. -/
theorem toValue_unparsed_is_int :
    ParseFloat (BigInt.String (some (10 ^ 309))) = .error .ErrRange ∧
    toValue (.bigInt (some (10 ^ 309))) "varint" = .int 0 ∧
    toValue (.bigInt (some (10 ^ 309))) "varint" ≠ .float64 Float64.zero ∧
    (toValue (.bigInt (some (10 ^ 309))) "varint").kind ≠
      some (getTypeArray "varint").elemKind := by
  decide!

/-- C4: for every non-null raw value, whatever its dynamic type,
`toValue(v, "blob")` is the string `Blob`. -/
theorem toValue_blob (v : RawValue) (hv : v ≠ .nil) : toValue v "blob" = .string "Blob" := by
  simp [toValue, hv]

/-- Witness of C4 at a nil `*inf.Dec` pointer, which is not the nil interface. -/
theorem toValue_blob_witness : toValue (.dec none) "blob" = .string "Blob" :=
  toValue_blob (.dec none) (by decide)

/-! ## Claims on `query` and `QueryData` -/

/-- The loop of `QueryData` completes when no query panics; the map it
returns is unchanged at every key that is no query's RefID, has an entry at
every query's RefID, and, the RefIDs being distinct, holds at each query's
RefID the response of that query. -/
theorem queriesLoop_ok (ds : SignalFxDatasource) (inst : instanceSettings)
    (qs : List DataQuery) (response : QueryDataResponse)
    (hq : ∀ q ∈ qs, ∃ res, (query ds inst q).result = .ok res) :
    ∃ r, queriesLoop ds inst qs response = .ok r ∧
      (∀ k, (∀ q ∈ qs, q.RefID ≠ k) → r.Responses k = response.Responses k) ∧
      (∀ q ∈ qs, ∃ res, r.Responses q.RefID = some res) ∧
      ((qs.map DataQuery.RefID).Nodup → ∀ q ∈ qs, ∀ res,
        (query ds inst q).result = .ok res → r.Responses q.RefID = some res) := by
  induction qs generalizing response with
  | nil => exact ⟨response, rfl, fun _ _ => rfl, by simp, by simp⟩
  | cons q rest ih =>
    obtain ⟨res, hres⟩ := hq q (by simp)
    have hrest : ∀ q1 ∈ rest, ∃ res, (query ds inst q1).result = .ok res :=
      fun q1 h1 => hq q1 (by simp [h1])
    obtain ⟨r, hr, hkeep, hentry, huniq⟩ := ih (response.set q.RefID res) hrest
    have hself : (∀ q1 ∈ rest, q1.RefID ≠ q.RefID) → r.Responses q.RefID = some res := by
      intro hne
      rw [hkeep q.RefID hne]
      simp [QueryDataResponse.set]
    refine ⟨r, ?_, ?_, ?_, ?_⟩
    · unfold queriesLoop
      rw [hres]
      exact hr
    · intro k hk
      rw [hkeep k (fun q1 h1 => hk q1 (by simp [h1]))]
      have : k ≠ q.RefID := fun e => hk q (by simp) e.symm
      simp [QueryDataResponse.set, this]
    · intro q1 h1
      rcases List.mem_cons.mp h1 with e | e
      · subst e
        by_cases hne : ∀ q2 ∈ rest, q2.RefID ≠ q1.RefID
        · exact ⟨res, hself hne⟩
        · push_neg at hne
          obtain ⟨q2, h2, e2⟩ := hne
          rw [← e2]
          exact hentry q2 h2
      · exact hentry q1 e
    · intro hnodup q1 h1 res1 hres1
      rw [List.map_cons, List.nodup_cons] at hnodup
      rcases List.mem_cons.mp h1 with e | e
      · subst e
        rw [hres] at hres1
        cases hres1
        apply hself
        intro q2 h2 e2
        exact hnodup.1 (List.mem_map.mpr ⟨q2, h2, e2⟩)
      · exact huniq hnodup.2 q1 e res1 hres1

/-- The loop of `QueryData` ends in a panic when a query panics. -/
theorem queriesLoop_panic (ds : SignalFxDatasource) (inst : instanceSettings)
    (qs : List DataQuery) (response : QueryDataResponse) (q : DataQuery) (p : Panic)
    (hq : q ∈ qs) (hp : (query ds inst q).result = .error p) :
    ∃ p1, queriesLoop ds inst qs response = .error p1 := by
  induction qs generalizing response with
  | nil => cases hq
  | cons q0 rest ih =>
    unfold queriesLoop
    cases h0 : (query ds inst q0).result with
    | error p0 => exact ⟨p0, rfl⟩
    | ok res =>
      rcases List.mem_cons.mp hq with e | e
      · subst e
        rw [hp] at h0
        cases h0
      · exact ih _ e

/-- The paths of `QueryData` that return no response: settings that do not
decode and a failing instance manager return the error; an instance of another
type and a recovered panic return `(nil, nil)`. -/
theorem QueryData_no_response (ds : SignalFxDatasource) (req : QueryDataRequest) :
    (∀ err, req.PluginContext.DataSourceInstanceSettings.JSONData = .malformed err →
      QueryData ds req = (none, some err)) ∧
    (∀ settings err, req.PluginContext.DataSourceInstanceSettings.JSONData = .valid settings →
      ds.imGet req.PluginContext = .error err → QueryData ds req = (none, some err)) ∧
    (∀ settings, req.PluginContext.DataSourceInstanceSettings.JSONData = .valid settings →
      ds.imGet req.PluginContext = .ok .other → QueryData ds req = (none, none)) ∧
    (∀ settings inst q p,
      req.PluginContext.DataSourceInstanceSettings.JSONData = .valid settings →
      ds.imGet req.PluginContext = .ok (.instanceSettings inst) → q ∈ req.Queries →
      (query { ds with settings := settings } inst q).result = .error p →
      QueryData ds req = (none, none)) := by
  refine ⟨?_, ?_, ?_, ?_⟩
  · intro err hs
    unfold QueryData
    simp only [hs]
  · intro settings err hs hi
    unfold QueryData
    simp only [hs, hi]
  · intro settings hs hi
    unfold QueryData
    simp only [hs, hi]
  · intro settings inst q p hs hi hq hp
    obtain ⟨p1, h1⟩ :=
      queriesLoop_panic { ds with settings := settings } inst req.Queries
        NewQueryDataResponse q p hq hp
    unfold QueryData
    simp only [hs, hi, h1]

/-- C6, as the code has it: for a batch request whose settings decode, whose
instance is obtained as an `*instanceSettings` and none of whose queries
panics, `QueryData` returns a response with an entry at every submitted
query's RefID, and, the RefIDs being distinct, that entry is the response of
`query` on that query alone. -/
theorem QueryData_entries (ds : SignalFxDatasource) (req : QueryDataRequest)
    (settings : Settings) (instSetting : instanceSettings)
    (hs : req.PluginContext.DataSourceInstanceSettings.JSONData = .valid settings)
    (hi : ds.imGet req.PluginContext = .ok (.instanceSettings instSetting))
    (hq : ∀ q ∈ req.Queries, ∃ res,
      (query { ds with settings := settings } instSetting q).result = .ok res) :
    ∃ response, QueryData ds req = (some response, none) ∧
      (∀ q ∈ req.Queries, ∃ res, response.Responses q.RefID = some res) ∧
      ((req.Queries.map DataQuery.RefID).Nodup → ∀ q ∈ req.Queries, ∀ res,
        (query { ds with settings := settings } instSetting q).result = .ok res →
          response.Responses q.RefID = some res) := by
  obtain ⟨r, hr, _, hentry, huniq⟩ :=
    queriesLoop_ok { ds with settings := settings } instSetting req.Queries
      NewQueryDataResponse hq
  refine ⟨r, ?_, hentry, huniq⟩
  unfold QueryData
  simp only [hs, hi, hr]

/-- Witness of C6: in a batch of a query that decodes and one that does not,
the entry of the first is its frame and the entry of the second its error. -/
theorem QueryData_entries_witness :
    ∃ response, QueryData demoDatasource demoRequest = (some response, none) ∧
      response.Responses "A" = some ⟨[some (NewFrame "datapoints")], none⟩ ∧
      response.Responses "B" = some ⟨[], some ⟨"unexpected end of JSON input"⟩⟩ := by
  obtain ⟨response, hr, _, huniq⟩ :=
    QueryData_entries demoDatasource demoRequest ⟨"https://api.example", "token"⟩ ⟨()⟩
      rfl rfl (by
        intro q hq
        simp only [demoRequest, List.mem_cons, List.mem_singleton, List.not_mem_nil,
          or_false] at hq
        rcases hq with rfl | rfl
        · exact ⟨_, rfl⟩
        · exact ⟨_, rfl⟩)
  exact ⟨response, hr,
    huniq (by decide) demoDataQuery (by decide) _ rfl,
    huniq (by decide) brokenDataQuery (by decide) _ rfl⟩

/-- Counterexample to C6 as stated: for a batch whose settings do not decode,
`QueryData` returns no response, only the decoding error. -/
theorem QueryData_entries_counterexample :
    (QueryData demoDatasource brokenSettingsRequest).1.isNone = true ∧
    (QueryData demoDatasource brokenSettingsRequest).2 = some ⟨"invalid character"⟩ ∧
    brokenSettingsRequest.Queries.map DataQuery.RefID = ["A", "B"] := by
  exact ⟨rfl, rfl, rfl⟩

/-- C7, as the code has it: for a query whose JSON decodes, `query` invokes
exactly one backend operation, `getDatapoints` (the `Path` of the zero-valued
`apiCall` never selects `getMetrics`); for a query whose JSON does not decode
it invokes none and returns the decoding error. -/
theorem query_backend_calls (ds : SignalFxDatasource) (inst : instanceSettings)
    (dataQuery : DataQuery) :
    (∀ m, dataQuery.JSON = .valid m →
      (query ds inst dataQuery).calls = [.getDatapoints]) ∧
    (∀ err, dataQuery.JSON = .malformed err →
      (query ds inst dataQuery).calls = [] ∧
        (query ds inst dataQuery).result = .ok ⟨[], some err⟩) := by
  constructor
  · intro m hm
    unfold query
    rw [hm]
    have hpath : ¬ SignalFxApiCall.zero.Path = "/v2/metric" := by decide
    simp only [if_neg hpath]
    cases hd : ds.getDatapoints ds.settings.url ds.settings.token with
    | error p => simp
    | ok pair =>
      obtain ⟨frame, err⟩ := pair
      cases err <;> simp
  · intro err hm
    unfold query
    rw [hm]
    exact ⟨rfl, rfl⟩

/-- Counterexample to C7 as stated: a query whose JSON does not decode is
answered without any backend call. -/
theorem query_backend_calls_counterexample :
    (query demoDatasource ⟨()⟩ brokenDataQuery).calls = [] ∧
    (query demoDatasource ⟨()⟩ brokenDataQuery).calls.length ≠ 1 := by
  decide
